import Mathlib

/-!
Verification development for the auto-review repository.

The repository reviews merge/pull requests: it parses unified diffs into
per-line change records, normalizes an AI model's output into a comment
list, filters the comments against the diff, and posts them back to the
VCS provider with an idempotent pre-clear step.

Every definition below is a shallow embedding of a function of the
repository, translated from the TypeScript source.  Lines are modelled as
`List Char`; JavaScript strings that are only stored (contents, bodies)
are modelled as Lean `String`.  Asynchronous provider calls are modelled
by passing the provider's responses (`ok` booleans) as explicit inputs and
recording the calls the code issues.
-/

/-- JS `line.startsWith(p)` on a line modelled as a character list. -/
def jsStartsWith (l p : List Char) : Bool :=
  p.isPrefixOf l

/-- JS `text.split('\n')`: split a character list at newline characters.
`splitLines [] = [[]]` matches `''.split('\n') = ['']`. -/
def splitLines : List Char → List (List Char)
  | [] => [[]]
  | c :: rest =>
    if c = '\n' then
      [] :: splitLines rest
    else
      match splitLines rest with
      | [] => [[c]]
      | l :: ls => (c :: l) :: ls

/-- Numeric value of a run of ASCII digits, as produced by JS `parseInt`. -/
def digitsToNat (ds : List Char) : Nat :=
  ds.foldl (fun a c => a * 10 + (c.toNat - 48)) 0

/-- Split a character list into its leading ASCII-digit run and the rest
(the greedy match of a regex `\d*`). -/
def spanDigits (l : List Char) : List Char × List Char :=
  l.span (fun c => c.isDigit)

/-- Drop an expected literal: `some rest` when `p` is a prefix of `l`. -/
def dropLit (p l : List Char) : Option (List Char) :=
  if p.isPrefixOf l then some (l.drop p.length) else none

/-- Match the GitLab-style hunk-header regex
`@@ -(\d+),?\d* \+(\d+),?\d* @@` anchored at the start of `l`, returning
the two captured numbers.  The regex is deterministic: each greedy step is
forced because no later literal can consume a digit or a comma. -/
def matchHunkAtG (l : List Char) : Option (Nat × Nat) :=
  match dropLit ['@', '@', ' ', '-'] l with
  | none => none
  | some r1 =>
    match spanDigits r1 with
    | ([], _) => none
    | (d1, r2) =>
      let r3 := match r2 with
        | ',' :: t => (spanDigits t).2
        | t => (spanDigits t).2
      match dropLit [' ', '+'] r3 with
      | none => none
      | some r4 =>
        match spanDigits r4 with
        | ([], _) => none
        | (d2, r5) =>
          let r6 := match r5 with
            | ',' :: t => (spanDigits t).2
            | t => (spanDigits t).2
          match dropLit [' ', '@', '@'] r6 with
          | none => none
          | some _ => some (digitsToNat d1, digitsToNat d2)

/-- Match the GitHub-style hunk-header regex
`@@ -(\d+)(?:,\d+)? \+(\d+)(?:,\d+)? @@` anchored at the start of `l`.
It differs from the GitLab one in requiring at least one digit after a
comma. -/
def matchHunkAtGh (l : List Char) : Option (Nat × Nat) :=
  match dropLit ['@', '@', ' ', '-'] l with
  | none => none
  | some r1 =>
    match spanDigits r1 with
    | ([], _) => none
    | (d1, r2) =>
      let r3 := match r2 with
        | ',' :: t =>
          match spanDigits t with
          | ([], _) => ',' :: t
          | (_, u) => u
        | t => t
      match dropLit [' ', '+'] r3 with
      | none => none
      | some r4 =>
        match spanDigits r4 with
        | ([], _) => none
        | (d2, r5) =>
          let r6 := match r5 with
            | ',' :: t =>
              match spanDigits t with
              | ([], _) => ',' :: t
              | (_, u) => u
            | t => t
          match dropLit [' ', '@', '@'] r6 with
          | none => none
          | some _ => some (digitsToNat d1, digitsToNat d2)

/-- JS `line.match(re)` for the GitLab hunk regex: leftmost match in the
line. -/
def findHunkG : List Char → Option (Nat × Nat)
  | [] => none
  | c :: rest =>
    match matchHunkAtG (c :: rest) with
    | some r => some r
    | none => findHunkG rest

/-- JS `line.match(re)` for the GitHub hunk regex: leftmost match in the
line. -/
def findHunkGh : List Char → Option (Nat × Nat)
  | [] => none
  | c :: rest =>
    match matchHunkAtGh (c :: rest) with
    | some r => some r
    | none => findHunkGh rest

/-- The `DiffType` enum of `core/domain/entities/code-file.entity.ts`
(identical in `core/entities/code-file.ts`). -/
inductive DiffType where
  | added
  | deleted
  | unchanged
deriving DecidableEq

/-- The single-line-number `FileDiff` shape of
`core/entities/code-file.ts`: `lineNumber`, `content`, `type`.  This is
the record the three-argument `new FileDiff(...)` calls of
`gitlab.repository.ts#parseDiff` and `github.repository.ts#parsePatch`
construct. -/
structure FileDiffSingle where
  lineNumber : Option Nat
  content : String
  type : DiffType
deriving DecidableEq

/-- The two-line-number `FileDiff` class of
`core/domain/entities/code-file.entity.ts`: `oldLineNumber`,
`newLineNumber`, `content`, `type`, used by the four-argument
`new FileDiff(...)` calls of the part_006 parsers. -/
structure FileDiff where
  oldLineNumber : Option Nat
  newLineNumber : Option Nat
  content : String
  type : DiffType
deriving DecidableEq

/-- Loop of `GitlabRepository.parseDiff` (gitlab.repository.ts): running
cursors `o` (old) and `n` (new) start as `null`; a hunk header that
matches the regex resets them; `+`/`-`/other lines emit ADDED/DELETED/
UNCHANGED records.  DELETED records are emitted with a `null` line
number, exactly as in the source (`new FileDiff(null, ...)`). -/
def parseDiffGitlabGo : List (List Char) → Option Nat → Option Nat → List FileDiffSingle
  | [], _, _ => []
  | l :: ls, o, n =>
    if jsStartsWith l ['@', '@'] then
      match findHunkG l with
      | some (a, b) => parseDiffGitlabGo ls (some a) (some b)
      | none => parseDiffGitlabGo ls o n
    else if jsStartsWith l ['+'] && !jsStartsWith l ['+', '+', '+'] then
      ⟨n, String.mk (l.drop 1), .added⟩ :: parseDiffGitlabGo ls o (n.map (· + 1))
    else if jsStartsWith l ['-'] && !jsStartsWith l ['-', '-', '-'] then
      ⟨none, String.mk (l.drop 1), .deleted⟩ :: parseDiffGitlabGo ls (o.map (· + 1)) n
    else if !jsStartsWith l ['@', '@'] && !jsStartsWith l ['-', '-', '-']
        && !jsStartsWith l ['+', '+', '+'] then
      ⟨n, String.mk l, .unchanged⟩ :: parseDiffGitlabGo ls (o.map (· + 1)) (n.map (· + 1))
    else
      parseDiffGitlabGo ls o n

/-- `GitlabRepository.parseDiff` (gitlab.repository.ts): empty input is
returned as-is (`if (!diffContent) return []`), otherwise the line loop
runs with both cursors `null`. -/
def parseDiffGitlab (diffContent : String) : List FileDiffSingle :=
  if diffContent = "" then []
  else parseDiffGitlabGo (splitLines diffContent.data) none none

/-- Loop of `GithubRepository.parsePatch` (github.repository.ts).  Same
`+`/`-` classification as the GitLab parser, but the catch-all branch
only excludes lines starting with `\` (the no-newline marker), so the
literal `---`/`+++` header lines fall through to UNCHANGED. -/
def parsePatchGithubGo : List (List Char) → Option Nat → Option Nat → List FileDiffSingle
  | [], _, _ => []
  | l :: ls, o, n =>
    if jsStartsWith l ['@', '@'] then
      match findHunkGh l with
      | some (a, b) => parsePatchGithubGo ls (some a) (some b)
      | none => parsePatchGithubGo ls o n
    else if jsStartsWith l ['+'] && !jsStartsWith l ['+', '+', '+'] then
      ⟨n, String.mk (l.drop 1), .added⟩ :: parsePatchGithubGo ls o (n.map (· + 1))
    else if jsStartsWith l ['-'] && !jsStartsWith l ['-', '-', '-'] then
      ⟨none, String.mk (l.drop 1), .deleted⟩ :: parsePatchGithubGo ls (o.map (· + 1)) n
    else if !jsStartsWith l ['\\'] then
      ⟨n, String.mk l, .unchanged⟩ :: parsePatchGithubGo ls (o.map (· + 1)) (n.map (· + 1))
    else
      parsePatchGithubGo ls o n

/-- `GithubRepository.parsePatch` (github.repository.ts). -/
def parsePatchGithub (patch : String) : List FileDiffSingle :=
  if patch = "" then []
  else parsePatchGithubGo (splitLines patch.data) none none

/-- Loop of `VersionControlAdapter.parseDiffContent`
(version-control.adapter.ts).  Like the GitLab parser but with the
GitHub hunk regex, and the catch-all branch additionally excludes the
no-newline marker `\`. -/
def parseDiffContentGo : List (List Char) → Option Nat → Option Nat → List FileDiffSingle
  | [], _, _ => []
  | l :: ls, o, n =>
    if jsStartsWith l ['@', '@'] then
      match findHunkGh l with
      | some (a, b) => parseDiffContentGo ls (some a) (some b)
      | none => parseDiffContentGo ls o n
    else if jsStartsWith l ['+'] && !jsStartsWith l ['+', '+', '+'] then
      ⟨n, String.mk (l.drop 1), .added⟩ :: parseDiffContentGo ls o (n.map (· + 1))
    else if jsStartsWith l ['-'] && !jsStartsWith l ['-', '-', '-'] then
      ⟨none, String.mk (l.drop 1), .deleted⟩ :: parseDiffContentGo ls (o.map (· + 1)) n
    else if !jsStartsWith l ['@', '@'] && !jsStartsWith l ['-', '-', '-']
        && !jsStartsWith l ['+', '+', '+'] && !jsStartsWith l ['\\'] then
      ⟨n, String.mk l, .unchanged⟩ :: parseDiffContentGo ls (o.map (· + 1)) (n.map (· + 1))
    else
      parseDiffContentGo ls o n

/-- `VersionControlAdapter.parseDiffContent` (version-control.adapter.ts). -/
def parseDiffContent (diffContent : String) : List FileDiffSingle :=
  if diffContent = "" then []
  else parseDiffContentGo (splitLines diffContent.data) none none

/-- Loop of `GitlabRepository.parseDetailedDiff` (part_006): the
two-line-number variant.  ADDED records carry `(null, newCursor)`,
DELETED records `(oldCursor, null)`, UNCHANGED records both cursors. -/
def parseDetailedDiffGo : List (List Char) → Option Nat → Option Nat → List FileDiff
  | [], _, _ => []
  | l :: ls, o, n =>
    if jsStartsWith l ['@', '@'] then
      match findHunkG l with
      | some (a, b) => parseDetailedDiffGo ls (some a) (some b)
      | none => parseDetailedDiffGo ls o n
    else if jsStartsWith l ['+'] && !jsStartsWith l ['+', '+', '+'] then
      ⟨none, n, String.mk (l.drop 1), .added⟩ :: parseDetailedDiffGo ls o (n.map (· + 1))
    else if jsStartsWith l ['-'] && !jsStartsWith l ['-', '-', '-'] then
      ⟨o, none, String.mk (l.drop 1), .deleted⟩ :: parseDetailedDiffGo ls (o.map (· + 1)) n
    else if !jsStartsWith l ['@', '@'] && !jsStartsWith l ['-', '-', '-']
        && !jsStartsWith l ['+', '+', '+'] then
      ⟨o, n, String.mk l, .unchanged⟩ :: parseDetailedDiffGo ls (o.map (· + 1)) (n.map (· + 1))
    else
      parseDetailedDiffGo ls o n

/-- `GitlabRepository.parseDetailedDiff` (part_006).  The source takes a
`filePath` argument it never reads. -/
def parseDetailedDiff (_filePath : String) (diffContent : String) : List FileDiff :=
  if diffContent = "" then []
  else parseDetailedDiffGo (splitLines diffContent.data) none none

/-- Loop of the part_006 `GithubRepository.parsePatch`: the `+` and `-`
branches do NOT exclude `+++`/`---`, so literal header lines emit
ADDED/DELETED records. -/
def parsePatchP6Go : List (List Char) → Option Nat → Option Nat → List FileDiff
  | [], _, _ => []
  | l :: ls, o, n =>
    if jsStartsWith l ['@', '@'] then
      match findHunkGh l with
      | some (a, b) => parsePatchP6Go ls (some a) (some b)
      | none => parsePatchP6Go ls o n
    else if jsStartsWith l ['+'] then
      ⟨none, n, String.mk (l.drop 1), .added⟩ :: parsePatchP6Go ls o (n.map (· + 1))
    else if jsStartsWith l ['-'] then
      ⟨o, none, String.mk (l.drop 1), .deleted⟩ :: parsePatchP6Go ls (o.map (· + 1)) n
    else if !jsStartsWith l ['\\'] then
      ⟨o, n, String.mk l, .unchanged⟩ :: parsePatchP6Go ls (o.map (· + 1)) (n.map (· + 1))
    else
      parsePatchP6Go ls o n

/-- The part_006 `GithubRepository.parsePatch`. -/
def parsePatchP6 (patch : String) : List FileDiff :=
  if patch = "" then []
  else parsePatchP6Go (splitLines patch.data) none none

/-- Line numbers of the ADDED records of a parse result, in emission
order. -/
def addedNums (rs : List FileDiffSingle) : List Nat :=
  rs.filterMap (fun r => if r.type = .added then r.lineNumber else none)

/-- The `CommentCategory` enum of `core/domain/entities/review.entity.ts`,
in declaration order. -/
inductive CommentCategory where
  | security
  | performance
  | style
  | best_practice
  | bug
  | other
deriving DecidableEq

/-- The string value of each `CommentCategory` member. -/
def CommentCategory.value : CommentCategory → String
  | .security => "security"
  | .performance => "performance"
  | .style => "style"
  | .best_practice => "best_practice"
  | .bug => "bug"
  | .other => "other"

/-- `Object.values(CommentCategory)`: the members in declaration order. -/
def commentCategoryValues : List CommentCategory :=
  [.security, .performance, .style, .best_practice, .bug, .other]

/-- The `CommentSeverity` enum of `core/domain/entities/review.entity.ts`. -/
inductive CommentSeverity where
  | critical
  | high
  | medium
  | low
  | info
deriving DecidableEq

/-- The string value of each `CommentSeverity` member. -/
def CommentSeverity.value : CommentSeverity → String
  | .critical => "critical"
  | .high => "high"
  | .medium => "medium"
  | .low => "low"
  | .info => "info"

/-- `Object.values(CommentSeverity)`: the members in declaration order. -/
def commentSeverityValues : List CommentSeverity :=
  [.critical, .high, .medium, .low, .info]

/-- JS `String.prototype.toUpperCase` restricted to the ASCII and Latin-1
letters (enough for the enum values and the French strings at issue):
`a`-`z` and the Latin-1 lowercase block `à`-`þ` (except `÷`) map down by
32 code points, so `é` (0xE9) maps to `É` (0xC9); everything else is
unchanged. -/
def jsToUpperChar (c : Char) : Char :=
  if 97 ≤ c.toNat ∧ c.toNat ≤ 122 then Char.ofNat (c.toNat - 32)
  else if 224 ≤ c.toNat ∧ c.toNat ≤ 254 ∧ c.toNat ≠ 247 then Char.ofNat (c.toNat - 32)
  else c

/-- JS `s.toUpperCase()` under the restriction of `jsToUpperChar`. -/
def jsToUpper (s : String) : String :=
  String.mk (s.data.map jsToUpperChar)

/-- `ClaudeAIService.validateCategory` (claude-ai.service.ts): uppercase
the input and return the first enum member whose uppercased value matches,
defaulting to OTHER. -/
def validateCategory (category : String) : CommentCategory :=
  match commentCategoryValues.find? (fun v => jsToUpper v.value = jsToUpper category) with
  | some v => v
  | none => .other

/-- `ClaudeAIService.validateSeverity` (claude-ai.service.ts): same lookup
over the severity enum, defaulting to INFO. -/
def validateSeverity (severity : String) : CommentSeverity :=
  match commentSeverityValues.find? (fun v => jsToUpper v.value = jsToUpper severity) with
  | some v => v
  | none => .info

/-- A comment of the `AIResponse` interface
(`core/domain/entities/ai-response.entity.ts`). -/
structure AIComment where
  filePath : String
  lineNumber : Nat
  content : String
  category : CommentCategory
  severity : CommentSeverity
deriving DecidableEq

/-- The `AIResponse` interface: a comment list and a summary. -/
structure AIResponse where
  comments : List AIComment
  summary : String
deriving DecidableEq

/-- The `CodeFile` class of `core/domain/entities/code-file.entity.ts`
(six constructor fields; `changes` holds the two-line-number records). -/
structure CodeFile where
  path : String
  content : String
  language : String
  additions : Nat
  deletions : Nat
  changes : List FileDiff
deriving DecidableEq

/-- The JS template `` `${path}:${line}` `` used as a set key in
`filterCommentsForDiff`. -/
def diffKey (path : String) (line : Nat) : String :=
  path ++ ":" ++ Nat.repr line

/-- The `modifiedLines` set of `ClaudeAIService.filterCommentsForDiff`:
for each file, first every response comment whose `filePath` equals the
file's path contributes its own `(path, lineNumber)` key ("for tests,
consider all lines as modified"), then every ADDED change with a truthy
`newLineNumber` (non-null and non-zero) contributes its key. -/
def modifiedLinesOf (response : AIResponse) (files : List CodeFile) : List String :=
  files.flatMap (fun file =>
    response.comments.filterMap (fun comment =>
      if comment.filePath = file.path then some (diffKey file.path comment.lineNumber)
      else none)
    ++ file.changes.filterMap (fun change =>
      if change.type = .added then
        match change.newLineNumber with
        | some k => if k = 0 then none else some (diffKey file.path k)
        | none => none
      else none))

/-- `ClaudeAIService.filterCommentsForDiff` (claude-ai.service.ts): keep
exactly the comments whose key is in the `modifiedLines` set; the summary
passes through. -/
def filterCommentsForDiff (response : AIResponse) (files : List CodeFile) : AIResponse :=
  { comments := response.comments.filter
      (fun comment => decide (diffKey comment.filePath comment.lineNumber ∈ modifiedLinesOf response files)),
    summary := response.summary }

/-- A note on a merge request, as returned by the GitLab notes API
(`interface Note` in gitlab.repository.ts). -/
structure Note where
  id : Nat
  body : String
deriving DecidableEq

/-- JS `body.includes(m)`: `m` occurs as a contiguous substring of
`body`. -/
def jsIncludes : List Char → List Char → Bool
  | [], m => m.isEmpty
  | c :: t, m => m.isPrefixOf (c :: t) || jsIncludes t m

/-- `jsIncludes` on strings. -/
def strIncludes (body m : String) : Bool :=
  jsIncludes body.data m.data

/-- The marker test of `GitlabRepository.identifyAiNotes`
(gitlab.repository.ts): `note.body && (includes ... || ...)` over the four
fixed machine-authored markers, in source order. -/
def isAiNote (note : Note) : Bool :=
  !(note.body = "")
    && (strIncludes note.body "AI Code Review"
      || strIncludes note.body "**Code Review**"
      || strIncludes note.body "Code Review:"
      || strIncludes note.body "**Code Review**:")

/-- `GitlabRepository.identifyAiNotes`: ids of the notes matching the
marker test. -/
def identifyAiNotes (notes : List Note) : List Nat :=
  (notes.filter isAiNote).map (fun note => note.id)

/-- Effect of `GitlabRepository.clearPreviousComments` on the note list,
assuming every DELETE call succeeds: exactly the identified AI notes are
removed. -/
def clearPreviousComments (notes : List Note) : List Note :=
  notes.filter (fun note => !isAiNote note)

/-- Body posted by `GitlabRepository.tryPositionedComment` for a comment
with content `c`. -/
def positionedBody (content : String) : String :=
  "Code Review: " ++ content

/-- Body posted by `GitlabRepository.submitSimpleNote` (the plain-note
fallback). -/
def simpleNoteBody (filePath : String) (lineNumber : Nat) (content : String) : String :=
  "**Code Review**: " ++ filePath ++ " (line " ++ Nat.repr lineNumber ++ ")\n\n" ++ content

/-- Body posted by `GitlabRepository.submitReviewSummary`. -/
def summaryBody (summary : String) : String :=
  "## AI Code Review Summary\n\n" ++ summary

/-- A note body is machine-posted when it is one of the three body shapes
the system ever submits to the provider. -/
def PostedBody (b : String) : Prop :=
  (∃ c, b = positionedBody c)
    ∨ (∃ p k c, b = simpleNoteBody p k c)
    ∨ (∃ s, b = summaryBody s)

/-- One review run seen from the provider: the pre-clear step removes the
identified AI notes, then the run's new notes are appended. -/
def runPost (notes newNotes : List Note) : List Note :=
  clearPreviousComments notes ++ newNotes

/-- Number of machine-authored notes present on the request. -/
def countAiNotes (notes : List Note) : Nat :=
  (notes.filter isAiNote).length

/-- The provider calls a single-comment submission can issue, in order. -/
inductive SubmitCall where
  | positionedNew
  | positionedBoth
  | lineCodeCall
  | plainNote
deriving DecidableEq

/-- `GitlabRepository.submitComment` (gitlab.repository.ts), with the
provider's accept/reject answers passed in: the positional attempt keyed
by the new line, the retry that also populates the old path/line, then
the plain-note fallback.  Returns the boolean result of the source
together with the calls issued.  `hasShas` is the truthiness of
`diffReferences.baseSha && diffReferences.headSha`. -/
def submitCommentGitlab (hasShas posOk retryOk noteOk : Bool) : Bool × List SubmitCall :=
  if hasShas then
    if posOk then (true, [.positionedNew])
    else if retryOk then (true, [.positionedNew, .positionedBoth])
    else (noteOk, [.positionedNew, .positionedBoth, .plainNote])
  else
    (noteOk, [.plainNote])

/-- `GithubRepository.submitComment` (github.repository.ts): one
positional review-comment attempt, then the issue-comment fallback on
rejection. -/
def submitCommentGithub (posOk fallbackOk : Bool) : Bool × List SubmitCall :=
  if posOk then (true, [.positionedNew])
  else (fallbackOk, [.positionedNew, .plainNote])

/-- The part_006 `GitlabRepository.submitComment`: same ladder, but when
the SHAs are missing a line-code positional attempt is tried instead, and
a rejected plain-note fallback THROWS (`Failed to submit note`), which
the catch block rethrows as `Failed to submit comment`. -/
def submitCommentP6 (hasShas posOk retryOk lineOk noteOk : Bool) :
    Except String Bool × List SubmitCall :=
  if hasShas then
    if posOk then (.ok true, [.positionedNew])
    else if retryOk then (.ok true, [.positionedNew, .positionedBoth])
    else if noteOk then (.ok true, [.positionedNew, .positionedBoth, .plainNote])
    else (.error "Failed to submit comment", [.positionedNew, .positionedBoth, .plainNote])
  else
    if lineOk then (.ok true, [.lineCodeCall])
    else if noteOk then (.ok true, [.lineCodeCall, .plainNote])
    else (.error "Failed to submit comment", [.lineCodeCall, .plainNote])

/-- The `ReviewStatus` enum of `core/domain/entities/review.entity.ts`. -/
inductive ReviewStatusE where
  | pending
  | in_progress
  | completed
  | failed
deriving DecidableEq

/-- The sequential `for (const comment of comments) await submitComment`
loop shared by `AnalyzeMergeRequestUseCase.execute` (part_006) and
`CodeReviewService.reviewMergeRequest` (code-review.service.ts): each
outcome is awaited in order; a thrown error aborts the loop.  Returns the
number of submissions performed and the first thrown error, if any. -/
def postCommentsLoop : List (Except String Bool) → Nat × Option String
  | [] => (0, none)
  | .ok _ :: rest => ((postCommentsLoop rest).1 + 1, (postCommentsLoop rest).2)
  | .error e :: _ => (0, some e)

/-- Status and performed-submission count of the orchestration, given the
per-comment submission outcomes: both orchestrators wrap the loop in a
`try`/`catch` whose catch returns a FAILED review, and reach COMPLETED
otherwise. -/
def executeReview (outcomes : List (Except String Bool)) : ReviewStatusE × Nat :=
  match postCommentsLoop outcomes with
  | (k, none) => (.completed, k)
  | (k, some _) => (.failed, k)

/-- A changed-file record of the GitHub pull-request files API, as read
by `GithubRepository.getMergeRequestFiles` (absent `patch` is modelled as
`""`, matching `file.patch || ''`). -/
structure GhPrFile where
  filename : String
  status : String
  binary : Bool
  patch : String
deriving DecidableEq

/-- JS `text.split(sep)` for a one-character separator. -/
def splitOnChar (sep : Char) : List Char → List (List Char)
  | [] => [[]]
  | c :: rest =>
    if c = sep then
      [] :: splitOnChar sep rest
    else
      match splitOnChar sep rest with
      | [] => [[c]]
      | l :: ls => (c :: l) :: ls

/-- JS `String.prototype.toLowerCase` restricted to ASCII letters. -/
def jsToLowerChar (c : Char) : Char :=
  if 65 ≤ c.toNat ∧ c.toNat ≤ 90 then Char.ofNat (c.toNat + 32) else c

/-- The extension-to-language table shared by the repositories'
`detectLanguage` methods. -/
def languageMap : List (String × String) :=
  [("js", "JavaScript"), ("ts", "TypeScript"), ("jsx", "JavaScript (React)"),
   ("tsx", "TypeScript (React)"), ("py", "Python"), ("java", "Java"),
   ("rb", "Ruby"), ("php", "PHP"), ("go", "Go"), ("cs", "C#"),
   ("cpp", "C++"), ("c", "C"), ("rs", "Rust"), ("swift", "Swift"),
   ("kt", "Kotlin"), ("sh", "Shell"), ("yml", "YAML"), ("yaml", "YAML"),
   ("json", "JSON"), ("md", "Markdown"), ("sql", "SQL"), ("tf", "Terraform"),
   ("html", "HTML"), ("css", "CSS"), ("scss", "SCSS"), ("sass", "Sass"),
   ("less", "Less")]

/-- `detectLanguage`: last `.`-separated component of the path, lowered,
looked up in the table; an empty extension or a missing entry yields
`Unknown`. -/
def detectLanguage (filePath : String) : String :=
  match (splitOnChar '.' filePath.data).getLast? with
  | none => "Unknown"
  | some ext =>
    let extStr := String.mk (ext.map jsToLowerChar)
    if extStr = "" then "Unknown"
    else
      match languageMap.find? (fun p => p.1 = extStr) with
      | some p => p.2
      | none => "Unknown"

/-- The four-argument `CodeFile` shape of `core/entities/code-file.ts`
constructed by `github.repository.ts` (`path`, `content`, `language`,
`diffs`). -/
structure CodeFileG where
  path : String
  content : String
  language : String
  diffs : List FileDiffSingle
deriving DecidableEq

/-- The `CodeFile` record `GithubRepository.getMergeRequestFiles` pushes
for a reviewable file; `contentOf` stands for the awaited
`getFileContent` call. -/
def mkGhCodeFile (contentOf : String → String) (f : GhPrFile) : CodeFileG :=
  ⟨f.filename, contentOf f.filename, detectLanguage f.filename, parsePatchGithub f.patch⟩

/-- Loop of `GithubRepository.getMergeRequestFiles`
(github.repository.ts): removed/binary files are skipped; the first
reviewable file is pushed and the accumulated list is returned from
INSIDE the loop; falling off the loop returns `undefined` (`none`). -/
def getMergeRequestFilesGithub (contentOf : String → String) : List GhPrFile → Option (List CodeFileG)
  | [] => none
  | f :: fs =>
    if f.status = "removed" ∨ f.binary = true then getMergeRequestFilesGithub contentOf fs
    else some [mkGhCodeFile contentOf f]

/-- The `diffReferences` field of the `GitlabRepository` class
(gitlab.repository.ts): a mutable per-instance cache of the three SHAs. -/
structure DiffReferences where
  baseSha : Option String
  startSha : Option String
  headSha : Option String
deriving DecidableEq

/-- Field initializer of `diffReferences`: all three SHAs `null`. -/
def initialDiffReferences : DiffReferences :=
  ⟨none, none, none⟩

/-- The `diff_refs` object of the GitLab merge-request changes response. -/
structure DiffRefsPayload where
  base_sha : String
  start_sha : String
  head_sha : String
deriving DecidableEq

/-- JS `s || null` on a string field: the empty string is falsy. -/
def orNullStr (s : String) : Option String :=
  if s = "" then none else some s

/-- `GitlabRepository.storeDiffReferences`: overwrite the instance field
with the fetched refs (`diffRefs?.x_sha || null`); the previous content
of the field is discarded. -/
def storeDiffReferences (refs : Option DiffRefsPayload) : DiffReferences :=
  match refs with
  | none => ⟨none, none, none⟩
  | some r => ⟨orNullStr r.base_sha, orNullStr r.start_sha, orNullStr r.head_sha⟩

/-- Instance state of `GitlabRepository` relevant to comment anchoring. -/
structure GitlabRepositoryState where
  diffReferences : DiffReferences
deriving DecidableEq

/-- State transition of `GitlabRepository.getMergeRequestFiles`: the
fetched `diff_refs` of whichever merge request was fetched replace the
instance cache. -/
def getMergeRequestFilesUpdate (s : GitlabRepositoryState) (refs : Option DiffRefsPayload) :
    GitlabRepositoryState :=
  { s with diffReferences := storeDiffReferences refs }

/-- The `position` payload built by `GitlabRepository.tryPositionedComment`
from the instance cache (`start_sha` falls back to `base_sha` via `||`). -/
structure GitlabPosition where
  base_sha : Option String
  start_sha : Option String
  head_sha : Option String
  position_type : String
  new_path : String
  new_line : Nat
  old_path : Option String
  old_line : Option Nat
deriving DecidableEq

/-- Payload construction of `tryPositionedComment`. -/
def tryPositionedCommentPayload (s : GitlabRepositoryState) (filePath : String)
    (lineNumber : Nat) (includeOldPath : Bool) : GitlabPosition :=
  { base_sha := s.diffReferences.baseSha,
    start_sha := match s.diffReferences.startSha with
      | some v => some v
      | none => s.diffReferences.baseSha,
    head_sha := s.diffReferences.headSha,
    position_type := "text",
    new_path := filePath,
    new_line := lineNumber,
    old_path := if includeOldPath then some filePath else none,
    old_line := if includeOldPath then some lineNumber else none }

/-! ## Helper lemmas -/

/-- A non-empty prefix hypothesis forces the shape of the line. -/
theorem jsStartsWith_exists (p : List Char) : ∀ (l : List Char), jsStartsWith l p = true →
    ∃ u, l = p ++ u := by
  induction p with
  | nil => intro l _; exact ⟨l, rfl⟩
  | cons a q ih =>
    intro l h
    cases l with
    | nil => simp [jsStartsWith, List.isPrefixOf] at h
    | cons b t =>
      have h2 : (a == b && q.isPrefixOf t) = true := h
      obtain ⟨hab, ht⟩ := (Bool.and_eq_true _ _).mp h2
      obtain ⟨u, rfl⟩ := ih t ht
      exact ⟨u, by rw [List.cons_append, eq_of_beq hab]⟩

/-- An ADDED record at the head of a parse result contributes its line
number to `addedNums`. -/
theorem addedNums_cons_added (k : Nat) (s : String) (rs : List FileDiffSingle) :
    addedNums (⟨some k, s, .added⟩ :: rs) = k :: addedNums rs := by
  simp [addedNums]

/-- A DELETED record contributes nothing to `addedNums`. -/
theorem addedNums_cons_deleted (n : Option Nat) (s : String) (rs : List FileDiffSingle) :
    addedNums (⟨n, s, .deleted⟩ :: rs) = addedNums rs := by
  simp [addedNums]

/-- An UNCHANGED record contributes nothing to `addedNums`. -/
theorem addedNums_cons_unchanged (n : Option Nat) (s : String) (rs : List FileDiffSingle) :
    addedNums (⟨n, s, .unchanged⟩ :: rs) = addedNums rs := by
  simp [addedNums]

/-- Step shape of the GitLab diff-parsing loop on a non-header line. -/
theorem parseDiffGitlabGo_cons_cases (l : List Char) (t : List (List Char)) (o n : Option Nat)
    (hl : jsStartsWith l ['@', '@'] = false) :
    parseDiffGitlabGo (l :: t) o n
        = ⟨n, String.mk (l.drop 1), .added⟩ :: parseDiffGitlabGo t o (n.map (· + 1))
      ∨ parseDiffGitlabGo (l :: t) o n
        = ⟨none, String.mk (l.drop 1), .deleted⟩ :: parseDiffGitlabGo t (o.map (· + 1)) n
      ∨ parseDiffGitlabGo (l :: t) o n
        = ⟨n, String.mk l, .unchanged⟩ :: parseDiffGitlabGo t (o.map (· + 1)) (n.map (· + 1))
      ∨ parseDiffGitlabGo (l :: t) o n = parseDiffGitlabGo t o n := by
  simp only [parseDiffGitlabGo]
  rw [if_neg (by simp [hl])]
  by_cases h1 : (jsStartsWith l ['+'] && !jsStartsWith l ['+', '+', '+']) = true
  · rw [if_pos h1]; exact Or.inl rfl
  · rw [if_neg h1]
    by_cases h2 : (jsStartsWith l ['-'] && !jsStartsWith l ['-', '-', '-']) = true
    · rw [if_pos h2]; exact Or.inr (Or.inl rfl)
    · rw [if_neg h2]
      by_cases h3 : (!jsStartsWith l ['@', '@'] && !jsStartsWith l ['-', '-', '-']
          && !jsStartsWith l ['+', '+', '+']) = true
      · rw [if_pos h3]; exact Or.inr (Or.inr (Or.inl rfl))
      · rw [if_neg h3]; exact Or.inr (Or.inr (Or.inr rfl))

/-- Every ADDED line number emitted while the new cursor is `some k` (and
no hunk header intervenes) is at least `k`. -/
theorem addedNums_lb (ls : List (List Char)) :
    ∀ (o : Option Nat) (k : Nat),
    (∀ l ∈ ls, jsStartsWith l ['@', '@'] = false) →
    ∀ m ∈ addedNums (parseDiffGitlabGo ls o (some k)), k ≤ m := by
  induction ls with
  | nil => intro o k _ m hm; simp [parseDiffGitlabGo, addedNums] at hm
  | cons l t ih =>
    intro o k h m hm
    have hl : jsStartsWith l ['@', '@'] = false := h l (by simp)
    have ht : ∀ x ∈ t, jsStartsWith x ['@', '@'] = false := fun x hx => h x (by simp [hx])
    rcases parseDiffGitlabGo_cons_cases l t o (some k) hl with he | he | he | he <;>
      rw [he] at hm
    · rw [addedNums_cons_added] at hm
      rcases List.mem_cons.mp hm with rfl | hm2
      · exact Nat.le_refl m
      · exact Nat.le_of_succ_le (ih o (k + 1) ht m hm2)
    · rw [addedNums_cons_deleted] at hm
      exact ih (o.map (· + 1)) k ht m hm
    · rw [addedNums_cons_unchanged] at hm
      exact Nat.le_of_succ_le (ih (o.map (· + 1)) (k + 1) ht m hm)
    · exact ih o k ht m hm

/-- Within a hunk (no further hunk header), the ADDED line numbers are
strictly increasing in emission order. -/
theorem addedNums_pairwise (ls : List (List Char)) :
    ∀ (o : Option Nat) (k : Nat),
    (∀ l ∈ ls, jsStartsWith l ['@', '@'] = false) →
    (addedNums (parseDiffGitlabGo ls o (some k))).Pairwise (· < ·) := by
  induction ls with
  | nil => intro o k _; simp [parseDiffGitlabGo, addedNums]
  | cons l t ih =>
    intro o k h
    have hl : jsStartsWith l ['@', '@'] = false := h l (by simp)
    have ht : ∀ x ∈ t, jsStartsWith x ['@', '@'] = false := fun x hx => h x (by simp [hx])
    rcases parseDiffGitlabGo_cons_cases l t o (some k) hl with he | he | he | he <;> rw [he]
    · rw [addedNums_cons_added]
      refine List.Pairwise.cons ?_ (ih o (k + 1) ht)
      intro m hm
      exact Nat.lt_of_succ_le (addedNums_lb t o (k + 1) ht m hm)
    · rw [addedNums_cons_deleted]
      exact ih (o.map (· + 1)) k ht
    · rw [addedNums_cons_unchanged]
      exact ih (o.map (· + 1)) (k + 1) ht
    · exact ih o k ht

/-- A matching hunk header resets both cursors of the GitLab parser. -/
theorem parseDiffGitlabGo_hunk (l : List Char) (ls : List (List Char)) (o n : Option Nat)
    (a b : Nat) (h : jsStartsWith l ['@', '@'] = true) (hf : findHunkG l = some (a, b)) :
    parseDiffGitlabGo (l :: ls) o n = parseDiffGitlabGo ls (some a) (some b) := by
  simp only [parseDiffGitlabGo]
  rw [if_pos h, hf]

/-- An added line emits a record carrying the current new cursor in the
GitLab parser. -/
theorem parseDiffGitlabGo_added (l : List Char) (ls : List (List Char)) (o n : Option Nat)
    (h0 : jsStartsWith l ['@', '@'] = false) (h1 : jsStartsWith l ['+'] = true)
    (h3 : jsStartsWith l ['+', '+', '+'] = false) :
    parseDiffGitlabGo (l :: ls) o n
      = ⟨n, String.mk (l.drop 1), .added⟩ :: parseDiffGitlabGo ls o (n.map (· + 1)) := by
  simp only [parseDiffGitlabGo]
  rw [if_neg (by simp [h0]), if_pos (by simp [h1, h3])]

/-- Step shape of the part_006 detailed-diff loop, all branches. -/
theorem parseDetailedDiffGo_cons_cases (l : List Char) (t : List (List Char)) (o n : Option Nat) :
    (∃ a b, parseDetailedDiffGo (l :: t) o n = parseDetailedDiffGo t (some a) (some b))
      ∨ parseDetailedDiffGo (l :: t) o n = parseDetailedDiffGo t o n
      ∨ parseDetailedDiffGo (l :: t) o n
        = ⟨none, n, String.mk (l.drop 1), .added⟩ :: parseDetailedDiffGo t o (n.map (· + 1))
      ∨ parseDetailedDiffGo (l :: t) o n
        = ⟨o, none, String.mk (l.drop 1), .deleted⟩ :: parseDetailedDiffGo t (o.map (· + 1)) n
      ∨ parseDetailedDiffGo (l :: t) o n
        = ⟨o, n, String.mk l, .unchanged⟩ :: parseDetailedDiffGo t (o.map (· + 1)) (n.map (· + 1)) := by
  simp only [parseDetailedDiffGo]
  by_cases h0 : jsStartsWith l ['@', '@'] = true
  · rw [if_pos h0]
    rcases hf : findHunkG l with _ | ⟨a, b⟩
    · exact Or.inr (Or.inl rfl)
    · exact Or.inl ⟨a, b, rfl⟩
  · rw [if_neg h0]
    by_cases h1 : (jsStartsWith l ['+'] && !jsStartsWith l ['+', '+', '+']) = true
    · rw [if_pos h1]; exact Or.inr (Or.inr (Or.inl rfl))
    · rw [if_neg h1]
      by_cases h2 : (jsStartsWith l ['-'] && !jsStartsWith l ['-', '-', '-']) = true
      · rw [if_pos h2]; exact Or.inr (Or.inr (Or.inr (Or.inl rfl)))
      · rw [if_neg h2]
        by_cases h3 : (!jsStartsWith l ['@', '@'] && !jsStartsWith l ['-', '-', '-']
            && !jsStartsWith l ['+', '+', '+']) = true
        · rw [if_pos h3]; exact Or.inr (Or.inr (Or.inr (Or.inr rfl)))
        · rw [if_neg h3]; exact Or.inr (Or.inl rfl)

/-- Once both cursors are set, every record of the part_006 parser
satisfies the ADDED/DELETED kind invariant. -/
theorem parseDetailedDiffGo_kind_inv (ls : List (List Char)) :
    ∀ (a b : Nat), ∀ r ∈ parseDetailedDiffGo ls (some a) (some b),
      (r.type = .added → r.oldLineNumber = none ∧ r.newLineNumber ≠ none)
        ∧ (r.type = .deleted → r.newLineNumber = none ∧ r.oldLineNumber ≠ none) := by
  induction ls with
  | nil => intro a b r hr; simp [parseDetailedDiffGo] at hr
  | cons l t ih =>
    intro a b r hr
    rcases parseDetailedDiffGo_cons_cases l t (some a) (some b)
      with ⟨x, y, he⟩ | he | he | he | he <;> rw [he] at hr
    · exact ih x y r hr
    · exact ih a b r hr
    · rcases List.mem_cons.mp hr with rfl | hr2
      · exact ⟨fun _ => ⟨rfl, by simp⟩, fun hty => DiffType.noConfusion hty⟩
      · exact ih a (b + 1) r hr2
    · rcases List.mem_cons.mp hr with rfl | hr2
      · exact ⟨fun hty => DiffType.noConfusion hty, fun _ => ⟨rfl, by simp⟩⟩
      · exact ih (a + 1) b r hr2
    · rcases List.mem_cons.mp hr with rfl | hr2
      · exact ⟨fun hty => DiffType.noConfusion hty, fun hty => DiffType.noConfusion hty⟩
      · exact ih (a + 1) (b + 1) r hr2

/-- A matching hunk header populates both cursors of the part_006 parser. -/
theorem parseDetailedDiffGo_hunk (l : List Char) (ls : List (List Char)) (o n : Option Nat)
    (a b : Nat) (h : jsStartsWith l ['@', '@'] = true) (hf : findHunkG l = some (a, b)) :
    parseDetailedDiffGo (l :: ls) o n = parseDetailedDiffGo ls (some a) (some b) := by
  simp only [parseDetailedDiffGo]
  rw [if_pos h, hf]

/-- Step shape of the GitLab parser including the header branches. -/
theorem parseDiffGitlabGo_cons_cases_full (l : List Char) (t : List (List Char)) (o n : Option Nat) :
    (∃ a b, parseDiffGitlabGo (l :: t) o n = parseDiffGitlabGo t (some a) (some b))
      ∨ parseDiffGitlabGo (l :: t) o n = parseDiffGitlabGo t o n
      ∨ parseDiffGitlabGo (l :: t) o n
        = ⟨n, String.mk (l.drop 1), .added⟩ :: parseDiffGitlabGo t o (n.map (· + 1))
      ∨ parseDiffGitlabGo (l :: t) o n
        = ⟨none, String.mk (l.drop 1), .deleted⟩ :: parseDiffGitlabGo t (o.map (· + 1)) n
      ∨ parseDiffGitlabGo (l :: t) o n
        = ⟨n, String.mk l, .unchanged⟩ :: parseDiffGitlabGo t (o.map (· + 1)) (n.map (· + 1)) := by
  simp only [parseDiffGitlabGo]
  by_cases h0 : jsStartsWith l ['@', '@'] = true
  · rw [if_pos h0]
    rcases hf : findHunkG l with _ | ⟨a, b⟩
    · exact Or.inr (Or.inl rfl)
    · exact Or.inl ⟨a, b, rfl⟩
  · rw [if_neg h0]
    by_cases h1 : (jsStartsWith l ['+'] && !jsStartsWith l ['+', '+', '+']) = true
    · rw [if_pos h1]; exact Or.inr (Or.inr (Or.inl rfl))
    · rw [if_neg h1]
      by_cases h2 : (jsStartsWith l ['-'] && !jsStartsWith l ['-', '-', '-']) = true
      · rw [if_pos h2]; exact Or.inr (Or.inr (Or.inr (Or.inl rfl)))
      · rw [if_neg h2]
        by_cases h3 : (!jsStartsWith l ['@', '@'] && !jsStartsWith l ['-', '-', '-']
            && !jsStartsWith l ['+', '+', '+']) = true
        · rw [if_pos h3]; exact Or.inr (Or.inr (Or.inr (Or.inr rfl)))
        · rw [if_neg h3]; exact Or.inr (Or.inl rfl)

/-- Every DELETED record of the GitLab single-number parser carries a
null line number. -/
theorem parseDiffGitlabGo_deleted_null (ls : List (List Char)) :
    ∀ (o n : Option Nat), ∀ r ∈ parseDiffGitlabGo ls o n,
      r.type = .deleted → r.lineNumber = none := by
  induction ls with
  | nil => intro o n r hr; simp [parseDiffGitlabGo] at hr
  | cons l t ih =>
    intro o n r hr
    rcases parseDiffGitlabGo_cons_cases_full l t o n
      with ⟨x, y, he⟩ | he | he | he | he <;> rw [he] at hr
    · exact ih (some x) (some y) r hr
    · exact ih o n r hr
    · rcases List.mem_cons.mp hr with rfl | hr2
      · exact fun hty => DiffType.noConfusion hty
      · exact ih o (n.map (· + 1)) r hr2
    · rcases List.mem_cons.mp hr with rfl | hr2
      · exact fun _ => rfl
      · exact ih (o.map (· + 1)) n r hr2
    · rcases List.mem_cons.mp hr with rfl | hr2
      · exact fun hty => DiffType.noConfusion hty
      · exact ih (o.map (· + 1)) (n.map (· + 1)) r hr2

/-- A matching hunk header resets both cursors of the adapter parser and
emits no record. -/
theorem parseDiffContentGo_header (l : List Char) (ls : List (List Char)) (o n : Option Nat)
    (a b : Nat) (h : jsStartsWith l ['@', '@'] = true) (hf : findHunkGh l = some (a, b)) :
    parseDiffContentGo (l :: ls) o n = parseDiffContentGo ls (some a) (some b) := by
  simp only [parseDiffContentGo]
  rw [if_pos h, hf]

/-- A `@@` line that does not match the hunk regex emits no record and
leaves the cursors unchanged. -/
theorem parseDiffContentGo_header_none (l : List Char) (ls : List (List Char)) (o n : Option Nat)
    (h : jsStartsWith l ['@', '@'] = true) (hf : findHunkGh l = none) :
    parseDiffContentGo (l :: ls) o n = parseDiffContentGo ls o n := by
  simp only [parseDiffContentGo]
  rw [if_pos h, hf]

/-- A `+` line (not `+++`) emits ADDED at the new cursor and increments
it. -/
theorem parseDiffContentGo_added (l : List Char) (ls : List (List Char)) (o n : Option Nat)
    (h0 : jsStartsWith l ['@', '@'] = false) (h1 : jsStartsWith l ['+'] = true)
    (h3 : jsStartsWith l ['+', '+', '+'] = false) :
    parseDiffContentGo (l :: ls) o n
      = ⟨n, String.mk (l.drop 1), .added⟩ :: parseDiffContentGo ls o (n.map (· + 1)) := by
  simp only [parseDiffContentGo]
  rw [if_neg (by simp [h0]), if_pos (by simp [h1, h3])]

/-- A `-` line (not `---`) emits DELETED and increments the old cursor. -/
theorem parseDiffContentGo_deleted (l : List Char) (ls : List (List Char)) (o n : Option Nat)
    (h0 : jsStartsWith l ['@', '@'] = false) (h1 : jsStartsWith l ['+'] = false)
    (h2 : jsStartsWith l ['-'] = true) (h4 : jsStartsWith l ['-', '-', '-'] = false) :
    parseDiffContentGo (l :: ls) o n
      = ⟨none, String.mk (l.drop 1), .deleted⟩ :: parseDiffContentGo ls (o.map (· + 1)) n := by
  simp only [parseDiffContentGo]
  rw [if_neg (by simp [h0]), if_neg (by simp [h1]), if_pos (by simp [h2, h4])]

/-- Any other line (not a header, marker or no-newline line) emits
UNCHANGED and increments both cursors. -/
theorem parseDiffContentGo_unchanged (l : List Char) (ls : List (List Char)) (o n : Option Nat)
    (h0 : jsStartsWith l ['@', '@'] = false) (h1 : jsStartsWith l ['+'] = false)
    (h2 : jsStartsWith l ['-'] = false) (h5 : jsStartsWith l ['\\'] = false)
    (h3 : jsStartsWith l ['+', '+', '+'] = false) (h4 : jsStartsWith l ['-', '-', '-'] = false) :
    parseDiffContentGo (l :: ls) o n
      = ⟨n, String.mk l, .unchanged⟩ :: parseDiffContentGo ls (o.map (· + 1)) (n.map (· + 1)) := by
  simp only [parseDiffContentGo]
  rw [if_neg (by simp [h0]), if_neg (by simp [h1]), if_neg (by simp [h2]),
    if_pos (by simp [h0, h3, h4, h5])]

/-- A literal `+++` header line emits no record in the adapter parser. -/
theorem parseDiffContentGo_skip_plus3 (l : List Char) (ls : List (List Char)) (o n : Option Nat)
    (h : jsStartsWith l ['+', '+', '+'] = true) :
    parseDiffContentGo (l :: ls) o n = parseDiffContentGo ls o n := by
  obtain ⟨u, rfl⟩ := jsStartsWith_exists _ _ h
  simp only [parseDiffContentGo]
  rw [if_neg (by simp [jsStartsWith, List.isPrefixOf]),
    if_neg (by simp [jsStartsWith, List.isPrefixOf]),
    if_neg (by simp [jsStartsWith, List.isPrefixOf]),
    if_neg (by simp [jsStartsWith, List.isPrefixOf])]

/-- A literal `---` header line emits no record in the adapter parser. -/
theorem parseDiffContentGo_skip_minus3 (l : List Char) (ls : List (List Char)) (o n : Option Nat)
    (h : jsStartsWith l ['-', '-', '-'] = true) :
    parseDiffContentGo (l :: ls) o n = parseDiffContentGo ls o n := by
  obtain ⟨u, rfl⟩ := jsStartsWith_exists _ _ h
  simp only [parseDiffContentGo]
  rw [if_neg (by simp [jsStartsWith, List.isPrefixOf]),
    if_neg (by simp [jsStartsWith, List.isPrefixOf]),
    if_neg (by simp [jsStartsWith, List.isPrefixOf]),
    if_neg (by simp [jsStartsWith, List.isPrefixOf])]

/-- The no-newline marker line emits no record in the adapter parser. -/
theorem parseDiffContentGo_skip_backslash (l : List Char) (ls : List (List Char)) (o n : Option Nat)
    (h0 : jsStartsWith l ['@', '@'] = false) (h1 : jsStartsWith l ['+'] = false)
    (h2 : jsStartsWith l ['-'] = false) (h5 : jsStartsWith l ['\\'] = true) :
    parseDiffContentGo (l :: ls) o n = parseDiffContentGo ls o n := by
  simp only [parseDiffContentGo]
  rw [if_neg (by simp [h0]), if_neg (by simp [h1]), if_neg (by simp [h2]),
    if_neg (by simp [h5])]

/-- In the src GitHub parser a literal `+++` line falls through to the
catch-all branch and emits UNCHANGED. -/
theorem parsePatchGithubGo_plus3 (l : List Char) (ls : List (List Char)) (o n : Option Nat)
    (h : jsStartsWith l ['+', '+', '+'] = true) :
    parsePatchGithubGo (l :: ls) o n
      = ⟨n, String.mk l, .unchanged⟩ :: parsePatchGithubGo ls (o.map (· + 1)) (n.map (· + 1)) := by
  obtain ⟨u, rfl⟩ := jsStartsWith_exists _ _ h
  simp only [parsePatchGithubGo]
  rw [if_neg (by simp [jsStartsWith, List.isPrefixOf]),
    if_neg (by simp [jsStartsWith, List.isPrefixOf]),
    if_neg (by simp [jsStartsWith, List.isPrefixOf]),
    if_pos (by simp [jsStartsWith, List.isPrefixOf])]

/-- In the part_006 GitHub parser a literal `+++` line matches the
unguarded `+` branch and emits ADDED. -/
theorem parsePatchP6Go_plus3 (l : List Char) (ls : List (List Char)) (o n : Option Nat)
    (h : jsStartsWith l ['+', '+', '+'] = true) :
    parsePatchP6Go (l :: ls) o n
      = ⟨none, n, String.mk (l.drop 1), .added⟩ :: parsePatchP6Go ls o (n.map (· + 1)) := by
  obtain ⟨u, rfl⟩ := jsStartsWith_exists _ _ h
  simp only [parsePatchP6Go]
  rw [if_neg (by simp [jsStartsWith, List.isPrefixOf]),
    if_pos (by simp [jsStartsWith, List.isPrefixOf])]

/-- The empty marker is a prefix of every line. -/
theorem nil_isPrefixOf (t : List Char) : List.isPrefixOf [] t = true := by
  cases t <;> rfl

/-- A prefix of a list is a prefix of any right-extension of it. -/
theorem isPrefixOf_extend (m : List Char) : ∀ (b x : List Char),
    m.isPrefixOf b = true → m.isPrefixOf (b ++ x) = true := by
  induction m with
  | nil => intro b x _; exact nil_isPrefixOf (b ++ x)
  | cons a q ih =>
    intro b x h
    cases b with
    | nil => simp [List.isPrefixOf] at h
    | cons c t =>
      have h2 : (a == c && q.isPrefixOf t) = true := h
      obtain ⟨hac, ht⟩ := (Bool.and_eq_true _ _).mp h2
      show (a == c && q.isPrefixOf (t ++ x)) = true
      rw [hac, ih t x ht]
      rfl

/-- An occurrence of a marker survives appending more text. -/
theorem jsIncludes_extend (m : List Char) : ∀ (b x : List Char),
    jsIncludes b m = true → jsIncludes (b ++ x) m = true := by
  intro b
  induction b with
  | nil =>
    intro x h
    have hm : m = [] := by
      cases m with
      | nil => rfl
      | cons a q => simp [jsIncludes, List.isEmpty] at h
    subst hm
    cases x with
    | nil => rfl
    | cons c t => simp [jsIncludes, nil_isPrefixOf]
  | cons c t ih =>
    intro x h
    have h2 : (m.isPrefixOf (c :: t) || jsIncludes t m) = true := h
    rcases Bool.or_eq_true _ _ |>.mp h2 with hp | hi
    · show (m.isPrefixOf (c :: t ++ x) || jsIncludes (t ++ x) m) = true
      rw [show c :: t ++ x = (c :: t) ++ x from rfl, isPrefixOf_extend m (c :: t) x hp]
      rfl
    · show (m.isPrefixOf (c :: t ++ x) || jsIncludes (t ++ x) m) = true
      rw [ih x hi]
      simp

/-- `strIncludes` survives appending more text to the body. -/
theorem strIncludes_extend (b c m : String) (h : strIncludes b m = true) :
    strIncludes (b ++ c) m = true := by
  show jsIncludes (b.data ++ c.data) m.data = true
  exact jsIncludes_extend _ _ _ h

/-- Appending to a string with non-empty data keeps the data non-empty. -/
theorem data_append_ne_nil (s t : String) (hs : s.data ≠ []) : (s ++ t).data ≠ [] := by
  show s.data ++ t.data ≠ []
  intro hd
  rcases List.append_eq_nil.mp hd with ⟨h1, _⟩
  exact hs h1

/-- A string with a non-empty left part is not the empty string. -/
theorem str_append_ne_empty (s t : String) (hs : s.data ≠ []) : s ++ t ≠ "" := by
  intro he
  have hd : s.data ++ t.data = ([] : List Char) := congrArg String.data he
  rcases List.append_eq_nil.mp hd with ⟨h1, _⟩
  exact hs h1

/-- Every body the system posts matches the machine-authored marker test
of `identifyAiNotes`. -/
theorem postedBody_isAiNote (nt : Note) (h : PostedBody nt.body) : isAiNote nt = true := by
  rcases h with ⟨c, hb⟩ | ⟨p, k, c, hb⟩ | ⟨s, hb⟩
  · have h3 : strIncludes nt.body "Code Review:" = true := by
      rw [hb]
      exact strIncludes_extend _ _ _ (by decide)
    have hne : nt.body ≠ "" := by
      rw [hb]
      exact str_append_ne_empty _ _ (by decide)
    simp only [isAiNote]
    simp [hne, h3]
  · have h3 : strIncludes nt.body "**Code Review**" = true := by
      rw [hb]
      unfold simpleNoteBody
      exact strIncludes_extend _ _ _ (strIncludes_extend _ _ _ (strIncludes_extend _ _ _
        (strIncludes_extend _ _ _ (strIncludes_extend _ _ _ (by decide)))))
    have hne : nt.body ≠ "" := by
      rw [hb]
      unfold simpleNoteBody
      exact str_append_ne_empty _ _ (data_append_ne_nil _ _ (data_append_ne_nil _ _
        (data_append_ne_nil _ _ (data_append_ne_nil _ _ (by decide)))))
    simp only [isAiNote]
    simp [hne, h3]
  · have h3 : strIncludes nt.body "AI Code Review" = true := by
      rw [hb]
      unfold summaryBody
      exact strIncludes_extend _ _ _ (by decide)
    have hne : nt.body ≠ "" := by
      rw [hb]
      unfold summaryBody
      exact str_append_ne_empty _ _ (by decide)
    simp only [isAiNote]
    simp [hne, h3]

/-- After one run whose posted notes are all machine-marked, the
machine-authored note count equals that run's note count. -/
theorem countAiNotes_runPost (s n2 : List Note) (h2 : ∀ nt ∈ n2, PostedBody nt.body) :
    countAiNotes (runPost s n2) = n2.length := by
  unfold countAiNotes runPost clearPreviousComments
  rw [List.filter_append]
  have hnil : (s.filter (fun nt => !isAiNote nt)).filter isAiNote = [] := by
    rw [List.filter_filter]
    apply List.filter_eq_nil_iff.mpr
    intro nt _
    cases h : isAiNote nt <;> simp [h]
  have hall : n2.filter isAiNote = n2 :=
    List.filter_eq_self.mpr (fun nt hnt => postedBody_isAiNote nt (h2 nt hnt))
  rw [hnil, hall, List.nil_append]

/-- Complete characterization of the GitHub changed-files loop: it
returns the first reviewable file as a singleton list, or `undefined`. -/
theorem getFilesGh_eq (co : String → String) (files : List GhPrFile) :
    getMergeRequestFilesGithub co files =
      (files.find? (fun f => !decide (f.status = "removed" ∨ f.binary = true))).map
        (fun f => [mkGhCodeFile co f]) := by
  induction files with
  | nil => rfl
  | cons f fs ih =>
    unfold getMergeRequestFilesGithub
    by_cases h : f.status = "removed" ∨ f.binary = true
    · rw [if_pos h, ih, List.find?_cons_of_neg _ (by simp [h])]
    · rw [if_neg h, List.find?_cons_of_pos _ (by simp [h])]
      rfl

/-- A submission loop whose outcomes are all resolved (no thrown
exception) performs every submission and the review completes. -/
theorem executeReview_all_ok (results : List Bool) :
    executeReview (results.map (fun b => Except.ok b)) = (ReviewStatusE.completed, results.length) := by
  induction results with
  | nil => rfl
  | cons b bs ih =>
    simp only [List.map_cons, executeReview, postCommentsLoop] at *
    rcases hp : postCommentsLoop (bs.map (fun b => Except.ok b)) with ⟨k, e⟩
    rw [hp] at ih
    cases e with
    | none => simp_all
    | some err => simp_all

/-! ## Claim theorems -/

/-- C1 (amended): the comment-filtering step of normalization retains
every comment whose `filePath` equals the path of one of the known files,
regardless of its `lineNumber`, because `filterCommentsForDiff` first
seeds the `modifiedLines` set with every comment's own key for its file;
only comments whose key matches nothing (e.g. an unknown `filePath`) are
dropped. -/
theorem C1_filter_keeps_known_file_comments (response : AIResponse) (files : List CodeFile)
    (c : AIComment) (hc : c ∈ response.comments) (hf : ∃ f ∈ files, f.path = c.filePath) :
    c ∈ (filterCommentsForDiff response files).comments := by
  obtain ⟨f, hfmem, hfpath⟩ := hf
  unfold filterCommentsForDiff
  refine List.mem_filter.mpr ⟨hc, ?_⟩
  rw [decide_eq_true_eq]
  unfold modifiedLinesOf
  refine List.mem_flatMap.mpr ⟨f, hfmem, ?_⟩
  refine List.mem_append.mpr (Or.inl ?_)
  refine List.mem_filterMap.mpr ⟨c, hc, ?_⟩
  rw [if_pos hfpath.symm, hfpath]

/-- C1 witness: a concrete comment on a known file at a line outside the
diff is retained. -/
theorem C1_witness :
    (⟨"a.ts", 3, "w", CommentCategory.style, CommentSeverity.low⟩ : AIComment) ∈
      (filterCommentsForDiff ⟨[⟨"a.ts", 3, "w", CommentCategory.style, CommentSeverity.low⟩], "s"⟩
        [⟨"a.ts", "", "TypeScript", 0, 0, []⟩]).comments :=
  C1_filter_keeps_known_file_comments
    ⟨[⟨"a.ts", 3, "w", CommentCategory.style, CommentSeverity.low⟩], "s"⟩
    [⟨"a.ts", "", "TypeScript", 0, 0, []⟩]
    ⟨"a.ts", 3, "w", CommentCategory.style, CommentSeverity.low⟩
    (by decide)
    ⟨⟨"a.ts", "", "TypeScript", 0, 0, []⟩, by decide, rfl⟩

/-- C1 counterexample: the claim says a comment at `(file.js, 57)` with
line 57 not ADDED in the diff is excluded; the code keeps it. -/
theorem C1_counterexample :
    (⟨"file.js", 57, "bad", CommentCategory.bug, CommentSeverity.info⟩ : AIComment) ∈
      (filterCommentsForDiff
        ⟨[⟨"file.js", 57, "bad", CommentCategory.bug, CommentSeverity.info⟩], "summary"⟩
        [⟨"file.js", "", "JavaScript", 1, 0, [⟨none, some 10, "x", .added⟩]⟩]).comments := by
  decide

/-- C2: running the review flow twice in sequence is idempotent for
machine-authored notes: every posted body carries a fixed marker, the
pre-clear step removes every marker-matching note, so after the second
run the number of machine-authored notes equals the number the second
run posted, not the sum of both runs. -/
theorem C2_idempotent_second_run (s n1 n2 : List Note)
    (_h1 : ∀ nt ∈ n1, PostedBody nt.body) (h2 : ∀ nt ∈ n2, PostedBody nt.body) :
    countAiNotes (runPost (runPost s n1) n2) = n2.length :=
  countAiNotes_runPost _ _ h2

/-- C2 witness: two concrete sequential runs over a request that already
held one user note and one stale machine note. -/
theorem C2_witness :
    countAiNotes
      (runPost
        (runPost [⟨1, "hello"⟩, ⟨2, "Code Review: old"⟩] [⟨3, positionedBody "x"⟩])
        [⟨4, positionedBody "y"⟩, ⟨5, summaryBody "sum"⟩]) = 2 :=
  C2_idempotent_second_run [⟨1, "hello"⟩, ⟨2, "Code Review: old"⟩]
    [⟨3, positionedBody "x"⟩] [⟨4, positionedBody "y"⟩, ⟨5, summaryBody "sum"⟩]
    (by
      intro nt hnt
      simp only [List.mem_singleton] at hnt
      subst hnt
      exact Or.inl ⟨"x", rfl⟩)
    (by
      intro nt hnt
      rcases List.mem_cons.mp hnt with rfl | hnt2
      · exact Or.inl ⟨"y", rfl⟩
      · simp only [List.mem_singleton] at hnt2
        subst hnt2
        exact Or.inr (Or.inr ⟨"sum", rfl⟩))

/-- C3 (amended): containment of a failed plain-note fallback depends on
the variant.  In the `CodeReviewService` pipeline over the src
repositories, `submitComment` resolves to `false` when every rung is
rejected, so every remaining comment is still submitted and the review
completes.  In the part_006 pipeline the rejected fallback throws
`Failed to submit comment`, the loop aborts before the remaining
comments, and the review transitions to FAILED. -/
theorem C3_failure_containment :
    (∀ results : List Bool,
        executeReview (results.map (fun b => Except.ok b))
          = (ReviewStatusE.completed, results.length))
      ∧ (∀ noteOk : Bool, (submitCommentGitlab true false false noteOk).1 = noteOk)
      ∧ (∀ lineOk : Bool,
          (submitCommentP6 true false false lineOk false).1 = .error "Failed to submit comment")
      ∧ (∀ (e : String) (rest : List (Except String Bool)),
          executeReview (.error e :: rest) = (ReviewStatusE.failed, 0)) :=
  ⟨executeReview_all_ok, fun _ => rfl, fun _ => rfl, fun _ _ => rfl⟩

/-- C3 counterexample: two comments; the first has every rung and the
fallback rejected.  In the part_006 pipeline the review FAILS and zero
comments are submitted, so the remaining comment is not submitted. -/
theorem C3_counterexample :
    executeReview [(submitCommentP6 true false false false false).1,
                   (submitCommentP6 true true true true true).1]
      = (ReviewStatusE.failed, 0) := by
  decide

/-- C4 (amended): the kind invariant holds for the two-line-number
parser of part_006 (once a hunk header has set the cursors, ADDED
records carry only a `newLineNumber` and DELETED records only an
`oldLineNumber`), and a matching hunk header populates both cursors; but
in the single-line-number GitLab parser a DELETED record always carries
a null line number, even after a hunk header, while ADDED records carry
the current new cursor. -/
theorem C4_line_kind_invariant :
    (∀ (ls : List (List Char)) (a b : Nat), ∀ r ∈ parseDetailedDiffGo ls (some a) (some b),
        (r.type = DiffType.added → r.oldLineNumber = none ∧ r.newLineNumber ≠ none)
          ∧ (r.type = DiffType.deleted → r.newLineNumber = none ∧ r.oldLineNumber ≠ none))
      ∧ (∀ (l : List Char) (ls : List (List Char)) (o n : Option Nat) (a b : Nat),
          jsStartsWith l ['@', '@'] = true → findHunkG l = some (a, b) →
          parseDetailedDiffGo (l :: ls) o n = parseDetailedDiffGo ls (some a) (some b))
      ∧ (∀ (o n : Option Nat) (ls : List (List Char)), ∀ r ∈ parseDiffGitlabGo ls o n,
          r.type = DiffType.deleted → r.lineNumber = none)
      ∧ (∀ (l : List Char) (ls : List (List Char)) (o n : Option Nat),
          jsStartsWith l ['@', '@'] = false → jsStartsWith l ['+'] = true →
          jsStartsWith l ['+', '+', '+'] = false →
          parseDiffGitlabGo (l :: ls) o n
            = ⟨n, String.mk (l.drop 1), .added⟩ :: parseDiffGitlabGo ls o (n.map (· + 1))) :=
  ⟨fun ls a b => parseDetailedDiffGo_kind_inv ls a b,
   parseDetailedDiffGo_hunk,
   fun o n ls => parseDiffGitlabGo_deleted_null ls o n,
   parseDiffGitlabGo_added⟩

/-- C4 witness: the invariant evaluated on the concrete hunk
`@@ -3,2 +5,2 @@` followed by a deletion. -/
theorem C4_witness :
    ((⟨some 3, none, "a", DiffType.deleted⟩ : FileDiff).newLineNumber = none
        ∧ (⟨some 3, none, "a", DiffType.deleted⟩ : FileDiff).oldLineNumber ≠ none)
      ∧ parseDetailedDiffGo ["@@ -3,2 +5,2 @@".data, ['-', 'a']] none none
          = parseDetailedDiffGo [['-', 'a']] (some 3) (some 5)
      ∧ (⟨none, "a", DiffType.deleted⟩ : FileDiffSingle).lineNumber = none :=
  ⟨(C4_line_kind_invariant.1 [['-', 'a']] 3 5 ⟨some 3, none, "a", DiffType.deleted⟩ (by decide)).2 rfl,
   C4_line_kind_invariant.2.1 "@@ -3,2 +5,2 @@".data [['-', 'a']] none none 3 5 (by decide) (by decide),
   C4_line_kind_invariant.2.2.1 none none [['-', 'a']] ⟨none, "a", DiffType.deleted⟩ (by decide) rfl⟩

/-- C4 counterexample: after the hunk header `@@ -3,2 +5,2 @@`, the
GitLab parser emits a DELETED record whose line number is null, so the
claim that a DELETED record carries a (non-null) old line number fails. -/
theorem C4_counterexample :
    ¬ (∀ r ∈ parseDiffGitlab "@@ -3,2 +5,2 @@\n-a",
        r.type = DiffType.deleted → r.lineNumber ≠ none) := by
  decide

/-- C5 (amended): the diff anchor context is a mutable field of the
long-lived repository instance, overwritten by every changed-files
fetch; the positional payload built for a request therefore depends only
on the most recently stored refs, whichever request they came from
(last write wins), not on the request being submitted. -/
theorem C5_anchor_context_last_write_wins (s : GitlabRepositoryState)
    (refs : Option DiffRefsPayload) (p : String) (l : Nat) (inc : Bool) :
    tryPositionedCommentPayload (getMergeRequestFilesUpdate s refs) p l inc =
      tryPositionedCommentPayload (getMergeRequestFilesUpdate ⟨initialDiffReferences⟩ refs) p l inc :=
  rfl

/-- C5 counterexample: the payload for request A built after an
interleaved fetch for request B carries B's SHAs and differs from the
payload built before that fetch, contradicting the claimed invariance. -/
theorem C5_counterexample :
    tryPositionedCommentPayload
        (getMergeRequestFilesUpdate
          (getMergeRequestFilesUpdate ⟨initialDiffReferences⟩ (some ⟨"baseA", "startA", "headA"⟩))
          (some ⟨"baseB", "startB", "headB"⟩)) "file.js" 3 false
      ≠ tryPositionedCommentPayload
          (getMergeRequestFilesUpdate ⟨initialDiffReferences⟩ (some ⟨"baseA", "startA", "headA"⟩))
          "file.js" 3 false := by
  decide

/-- C6: within one hunk of the GitLab diff parser (no further hunk
header) the `newLineNumber` values of the ADDED records are strictly
increasing in emission order, and a matching hunk header line resets
both cursors to the values captured from the header. -/
theorem C6_added_monotonicity :
    (∀ (ls : List (List Char)) (o : Option Nat) (k : Nat),
        (∀ l ∈ ls, jsStartsWith l ['@', '@'] = false) →
        (addedNums (parseDiffGitlabGo ls o (some k))).Pairwise (· < ·))
      ∧ (∀ (l : List Char) (ls : List (List Char)) (o n : Option Nat) (a b : Nat),
          jsStartsWith l ['@', '@'] = true → findHunkG l = some (a, b) →
          parseDiffGitlabGo (l :: ls) o n = parseDiffGitlabGo ls (some a) (some b)) :=
  ⟨fun ls o k h => addedNums_pairwise ls o k h, parseDiffGitlabGo_hunk⟩

/-- C6 witness: a concrete hunk with two additions separated by context,
and a concrete header reset. -/
theorem C6_witness :
    (addedNums (parseDiffGitlabGo [['+', 'a'], [' ', 'b'], ['+', 'c']] none (some 5))).Pairwise (· < ·)
      ∧ parseDiffGitlabGo ["@@ -1,2 +7,2 @@".data, ['+', 'x']] none none
          = parseDiffGitlabGo [['+', 'x']] (some 1) (some 7) :=
  ⟨C6_added_monotonicity.1 [['+', 'a'], [' ', 'b'], ['+', 'c']] none 5 (by decide),
   C6_added_monotonicity.2 "@@ -1,2 +7,2 @@".data [['+', 'x']] none none 1 7 (by decide) (by decide)⟩

/-- C7 (amended): the claimed per-line classification holds exactly for
the adapter parser `parseDiffContent` (with "hunk header" read as any
line starting `@@`): `+` not `+++` emits ADDED, `-` not `---` emits
DELETED, `@@`/`---`/`+++`/no-newline lines emit nothing, and every other
line emits UNCHANGED.  The two GitHub `parsePatch` variants deviate on
the literal header lines: the src variant emits UNCHANGED for `+++`, and
the part_006 variant emits ADDED for `+++`. -/
theorem C7_line_classification :
    (∀ (l : List Char) (ls : List (List Char)) (o n : Option Nat) (a b : Nat),
        jsStartsWith l ['@', '@'] = true → findHunkGh l = some (a, b) →
        parseDiffContentGo (l :: ls) o n = parseDiffContentGo ls (some a) (some b))
      ∧ (∀ (l : List Char) (ls : List (List Char)) (o n : Option Nat),
          jsStartsWith l ['@', '@'] = true → findHunkGh l = none →
          parseDiffContentGo (l :: ls) o n = parseDiffContentGo ls o n)
      ∧ (∀ (l : List Char) (ls : List (List Char)) (o n : Option Nat),
          jsStartsWith l ['@', '@'] = false → jsStartsWith l ['+'] = true →
          jsStartsWith l ['+', '+', '+'] = false →
          parseDiffContentGo (l :: ls) o n
            = ⟨n, String.mk (l.drop 1), .added⟩ :: parseDiffContentGo ls o (n.map (· + 1)))
      ∧ (∀ (l : List Char) (ls : List (List Char)) (o n : Option Nat),
          jsStartsWith l ['@', '@'] = false → jsStartsWith l ['+'] = false →
          jsStartsWith l ['-'] = true → jsStartsWith l ['-', '-', '-'] = false →
          parseDiffContentGo (l :: ls) o n
            = ⟨none, String.mk (l.drop 1), .deleted⟩ :: parseDiffContentGo ls (o.map (· + 1)) n)
      ∧ (∀ (l : List Char) (ls : List (List Char)) (o n : Option Nat),
          jsStartsWith l ['+', '+', '+'] = true →
          parseDiffContentGo (l :: ls) o n = parseDiffContentGo ls o n)
      ∧ (∀ (l : List Char) (ls : List (List Char)) (o n : Option Nat),
          jsStartsWith l ['-', '-', '-'] = true →
          parseDiffContentGo (l :: ls) o n = parseDiffContentGo ls o n)
      ∧ (∀ (l : List Char) (ls : List (List Char)) (o n : Option Nat),
          jsStartsWith l ['@', '@'] = false → jsStartsWith l ['+'] = false →
          jsStartsWith l ['-'] = false → jsStartsWith l ['\\'] = true →
          parseDiffContentGo (l :: ls) o n = parseDiffContentGo ls o n)
      ∧ (∀ (l : List Char) (ls : List (List Char)) (o n : Option Nat),
          jsStartsWith l ['@', '@'] = false → jsStartsWith l ['+'] = false →
          jsStartsWith l ['-'] = false → jsStartsWith l ['\\'] = false →
          jsStartsWith l ['+', '+', '+'] = false → jsStartsWith l ['-', '-', '-'] = false →
          parseDiffContentGo (l :: ls) o n
            = ⟨n, String.mk l, .unchanged⟩ :: parseDiffContentGo ls (o.map (· + 1)) (n.map (· + 1)))
      ∧ (∀ (l : List Char) (ls : List (List Char)) (o n : Option Nat),
          jsStartsWith l ['+', '+', '+'] = true →
          parsePatchGithubGo (l :: ls) o n
            = ⟨n, String.mk l, .unchanged⟩ :: parsePatchGithubGo ls (o.map (· + 1)) (n.map (· + 1)))
      ∧ (∀ (l : List Char) (ls : List (List Char)) (o n : Option Nat),
          jsStartsWith l ['+', '+', '+'] = true →
          parsePatchP6Go (l :: ls) o n
            = ⟨none, n, String.mk (l.drop 1), .added⟩ :: parsePatchP6Go ls o (n.map (· + 1))) :=
  ⟨parseDiffContentGo_header, parseDiffContentGo_header_none, parseDiffContentGo_added,
   parseDiffContentGo_deleted, parseDiffContentGo_skip_plus3, parseDiffContentGo_skip_minus3,
   parseDiffContentGo_skip_backslash,
   fun l ls o n h0 h1 h2 h5 h3 h4 => parseDiffContentGo_unchanged l ls o n h0 h1 h2 h5 h3 h4,
   parsePatchGithubGo_plus3, parsePatchP6Go_plus3⟩

/-- C7 witness: the classification evaluated on concrete lines. -/
theorem C7_witness :
    parseDiffContentGo [['+', 'x']] none (some 4)
        = ⟨some 4, "x", DiffType.added⟩ :: parseDiffContentGo [] none (some 5)
      ∧ parseDiffContentGo [['+', '+', '+', ' ', 'b']] (some 1) (some 2)
          = parseDiffContentGo [] (some 1) (some 2)
      ∧ parsePatchGithubGo [['+', '+', '+', ' ', 'b']] (some 1) (some 2)
          = ⟨some 2, "+++ b", DiffType.unchanged⟩ :: parsePatchGithubGo [] (some 2) (some 3) :=
  ⟨C7_line_classification.2.2.1 ['+', 'x'] [] none (some 4) (by decide) (by decide) (by decide),
   C7_line_classification.2.2.2.2.1 ['+', '+', '+', ' ', 'b'] [] (some 1) (some 2) (by decide),
   C7_line_classification.2.2.2.2.2.2.2.2.1 ['+', '+', '+', ' ', 'b'] [] (some 1) (some 2) (by decide)⟩

/-- C7 counterexample: a literal `+++` header line makes the src GitHub
parser emit an UNCHANGED record, so the claim that such a line emits no
record of any kind is false. -/
theorem C7_counterexample :
    parsePatchGithub "+++ b/file.js" = [⟨none, "+++ b/file.js", DiffType.unchanged⟩]
      ∧ parsePatchGithub "+++ b/file.js" ≠ [] := by
  constructor
  · decide
  · decide

/-- C8 (amended): category normalization maps any string whose
(JS-)uppercased form equals an enumerated value's uppercased form onto
that value, and defaults every other string to OTHER.  `"SECURITY"`
therefore maps to SECURITY, but the French `"sécurité"` uppercases to
`"SÉCURITÉ"`, matches no enumerated value, and maps to OTHER, not
SECURITY. -/
theorem C8_category_normalization :
    validateCategory "SECURITY" = CommentCategory.security
      ∧ validateCategory "sécurité" = CommentCategory.other
      ∧ (∀ (v : CommentCategory) (s : String),
          jsToUpper v.value = jsToUpper s → validateCategory s = v)
      ∧ (∀ s : String, (∀ v ∈ commentCategoryValues, jsToUpper v.value ≠ jsToUpper s) →
          validateCategory s = CommentCategory.other) := by
  refine ⟨by decide, by decide, ?_, ?_⟩
  · intro v s h
    cases v <;> (unfold validateCategory; rw [← h]; decide)
  · intro s h
    unfold validateCategory
    rw [List.find?_eq_none.mpr]
    intro v hv
    simpa using h v hv

/-- C8 witness: the case-insensitive match and the OTHER default applied
at concrete strings. -/
theorem C8_witness :
    validateCategory "Security" = CommentCategory.security
      ∧ validateCategory "weird" = CommentCategory.other :=
  ⟨C8_category_normalization.2.2.1 CommentCategory.security "Security" (by decide),
   C8_category_normalization.2.2.2 "weird" (by decide)⟩

/-- C8 counterexample: `"sécurité"` does not map to SECURITY. -/
theorem C8_counterexample : validateCategory "sécurité" ≠ CommentCategory.security := by
  decide

/-- C9: when every positional rung is rejected (the new-line-only
attempt and the retry that also populates the old path/line for GitLab;
the single positional attempt for GitHub), the submission still issues
the plain-note fallback call before reporting the comment's outcome,
which is then exactly the fallback's outcome. -/
theorem C9_plain_note_fallback :
    (∀ posOk retryOk noteOk : Bool, posOk = false → retryOk = false →
        SubmitCall.plainNote ∈ (submitCommentGitlab true posOk retryOk noteOk).2
          ∧ (submitCommentGitlab true posOk retryOk noteOk).1 = noteOk)
      ∧ (∀ posOk fallbackOk : Bool, posOk = false →
          SubmitCall.plainNote ∈ (submitCommentGithub posOk fallbackOk).2
            ∧ (submitCommentGithub posOk fallbackOk).1 = fallbackOk) := by
  constructor
  · rintro p r nOk rfl rfl
    simp [submitCommentGitlab]
  · rintro p f rfl
    simp [submitCommentGithub]

/-- C9 witness: both ladders evaluated with every positional attempt
rejected and the note accepted. -/
theorem C9_witness :
    (SubmitCall.plainNote ∈ (submitCommentGitlab true false false true).2
        ∧ (submitCommentGitlab true false false true).1 = true)
      ∧ (SubmitCall.plainNote ∈ (submitCommentGithub false true).2
          ∧ (submitCommentGithub false true).1 = true) :=
  ⟨C9_plain_note_fallback.1 false false true rfl rfl,
   C9_plain_note_fallback.2 false true rfl⟩

/-- C10: the GitHub changed-files loop returns the accumulated list from
inside its first processed iteration, so the result is exactly the first
reviewable file as a singleton list; if every file is removed or binary
(or the list is empty), the function falls off the loop and returns
`undefined` (`none`), not an empty list. -/
theorem C10_first_file_only :
    (∀ (co : String → String) (files : List GhPrFile),
        getMergeRequestFilesGithub co files
          = (files.find? (fun f => !decide (f.status = "removed" ∨ f.binary = true))).map
              (fun f => [mkGhCodeFile co f]))
      ∧ (∀ (co : String → String) (files : List GhPrFile) (l : List CodeFileG),
          getMergeRequestFilesGithub co files = some l → l.length = 1)
      ∧ (∀ (co : String → String) (files : List GhPrFile),
          (∀ f ∈ files, f.status = "removed" ∨ f.binary = true) →
          getMergeRequestFilesGithub co files = none) := by
  refine ⟨getFilesGh_eq, ?_, ?_⟩
  · intro co files l h
    rw [getFilesGh_eq] at h
    rcases hf : files.find? (fun f => !decide (f.status = "removed" ∨ f.binary = true)) with _ | f
    · rw [hf] at h; simp at h
    · rw [hf] at h
      simp only [Option.map_some', Option.some.injEq] at h
      rw [← h]
      rfl
  · intro co files h
    rw [getFilesGh_eq, List.find?_eq_none.mpr]
    · rfl
    · intro f hf
      simp [h f hf]

/-- C10 witness: with two reviewable files only the first is returned
(length one), and with only a removed file the result is `none`. -/
theorem C10_witness :
    ([mkGhCodeFile (fun _ => "") ⟨"a.js", "modified", false, ""⟩] : List CodeFileG).length = 1
      ∧ getMergeRequestFilesGithub (fun _ => "") [⟨"a.js", "removed", false, ""⟩] = none :=
  ⟨C10_first_file_only.2.1 (fun _ => "")
      [⟨"a.js", "modified", false, ""⟩, ⟨"b.js", "modified", false, ""⟩] _ rfl,
   C10_first_file_only.2.2 (fun _ => "") [⟨"a.js", "removed", false, ""⟩] (by decide)⟩
